import Mathlib

/-!
Verification of the tournament-and-evolution engine of the game-theory
repository (file `src/gametheory.rs`).  The Rust code is shallowly embedded:
machine integers become `Nat` (all arithmetic here stays far below `u8`
overflow: genome encodings are sums of `2 ^ i` for `i < 5`), fallible
operations (panics, `unreachable` branches, failed `HashMap` look-ups)
become `Option`-valued functions where `none` models an abort, and the
random draws of the `rand` crate become explicit parameters.
-/

namespace GameTheory

/-- Binary move, `Cooperate` or `Defect` (enum `Decision`). -/
inductive Decision
  | Cooperate
  | Defect
deriving DecidableEq

/-- The `Not` implementation on `Decision`. -/
def Decision.compl : Decision → Decision
  | .Cooperate => .Defect
  | .Defect => .Cooperate

/-- `const GENOME_LENGTH: i32 = 5`. -/
def GENOME_LENGTH : Nat := 5

/-- `const POPULATION_SIZE: usize = 20`. -/
def POPULATION_SIZE : Nat := 20

/-- `const GENERATION_SIZE: usize = 10`. -/
def GENERATION_SIZE : Nat := 10

/-- Embedding of `number_to_genome`: the loop sets `genome[i]` whenever
`n | 2.pow(i) != 0` (the source uses bitwise OR in this test, so the
condition holds for every `i`; the embedding reproduces the source
faithfully, not the presumable intent `n & mask`). -/
def number_to_genome (n : Nat) : List Bool :=
  (List.range GENOME_LENGTH).map fun i => (n ||| 2 ^ i) != 0

/-- Embedding of `genome_to_number`: accumulates `2 ^ i` for every set gene,
iterating `i` from `GENOME_LENGTH - 1` down to `0` (the `foldr` applies the
largest index innermost, exactly like the reversed range loop). -/
def genome_to_number (g : List Bool) : Nat :=
  (List.range GENOME_LENGTH).foldr
    (fun i acc => if g.getD i false then acc + 2 ^ i else acc) 0

/-!
## Fixed strategy library

Every strategy function returns `Option Decision`: `some d` is a returned
decision, `none` models the fatal `unreachable` panic.  The two stochastic
strategies additionally take the resolved Bernoulli draw of the call as a
`Bool` parameter.
-/

/-- `good_tit_for_tat`: matches only on `other_prev_move`; never panics. -/
def good_tit_for_tat (_own_prev_move other_prev_move : Option Decision) :
    Option Decision :=
  match other_prev_move with
  | none => some .Cooperate
  | some mv =>
    match mv with
    | .Cooperate => some .Cooperate
    | .Defect => some .Defect

/-- `sus_tit_for_tat`: like `good_tit_for_tat` but opens with `Defect`. -/
def sus_tit_for_tat (_own_prev_move other_prev_move : Option Decision) :
    Option Decision :=
  match other_prev_move with
  | none => some .Defect
  | some mv =>
    match mv with
    | .Cooperate => some .Cooperate
    | .Defect => some .Defect

/-- `naive`: always cooperates. -/
def naive (_own_prev_move _other_prev_move : Option Decision) :
    Option Decision :=
  some .Cooperate

/-- `evil`: always defects. -/
def evil (_own_prev_move _other_prev_move : Option Decision) :
    Option Decision :=
  some .Defect

/-- `random`: cooperates iff the Bernoulli(0.5) draw came up true. -/
def random (_own_prev_move _other_prev_move : Option Decision)
    (draw : Bool) : Option Decision :=
  match draw with
  | true => some .Cooperate
  | false => some .Defect

/-- `xor`: panics (returns `none`) when exactly one argument is `none`. -/
def xor (own_prev_move other_prev_move : Option Decision) : Option Decision :=
  match own_prev_move, other_prev_move with
  | none, none => some .Cooperate
  | some own_pm, some other_pm =>
    match own_pm, other_pm with
    | .Cooperate, .Cooperate => some .Defect
    | .Cooperate, .Defect => some .Cooperate
    | .Defect, .Cooperate => some .Cooperate
    | .Defect, .Defect => some .Defect
  | some _, none => none
  | none, some _ => none

/-- `opposite_tit_for_tat`: complement of `good_tit_for_tat`. -/
def opposite_tit_for_tat (own_prev_move other_prev_move : Option Decision) :
    Option Decision :=
  (good_tit_for_tat own_prev_move other_prev_move).map Decision.compl

/-- `xnor`: panics (returns `none`) when exactly one argument is `none`. -/
def xnor (own_prev_move other_prev_move : Option Decision) : Option Decision :=
  match own_prev_move, other_prev_move with
  | none, none => some .Cooperate
  | some own_pm, some other_pm =>
    match own_pm, other_pm with
    | .Defect, .Defect => some .Cooperate
    | .Cooperate, .Defect => some .Defect
    | .Defect, .Cooperate => some .Defect
    | .Cooperate, .Cooperate => some .Cooperate
  | some _, none => none
  | none, some _ => none

/-- helper `and` (not a strategy of its own). -/
def and (own_prev_move other_prev_move : Option Decision) : Option Decision :=
  match own_prev_move, other_prev_move with
  | none, none => some .Cooperate
  | some own_pm, some other_pm =>
    match own_pm, other_pm with
    | .Cooperate, .Cooperate => some .Cooperate
    | .Cooperate, .Defect => some .Defect
    | .Defect, .Cooperate => some .Defect
    | .Defect, .Defect => some .Defect
  | some _, none => none
  | none, some _ => none

/-- `nand`: complement of `and`; inherits the panic on mixed arguments. -/
def nand (own_prev_move other_prev_move : Option Decision) : Option Decision :=
  (and own_prev_move other_prev_move).map Decision.compl

/-- `random_biased`: cooperates iff the Bernoulli(0.3) draw came up true. -/
def random_biased (_own_prev_move _other_prev_move : Option Decision)
    (draw : Bool) : Option Decision :=
  match draw with
  | true => some .Cooperate
  | false => some .Defect

/-- The genome-backed strategy closure built in `Tournament::from`: looks up
`gene[0]` on first encounter, `gene[1]`..`gene[4]` on the four history
combinations, and hits the `unreachable` branch on mixed arguments.  The
captured `gene` vector always has length 5 in the source, so the `getD`
defaults are never observed. -/
def genomeStrategy (gene : List Decision)
    (own_pm other_pm : Option Decision) : Option Decision :=
  match own_pm, other_pm with
  | none, none => some (gene.getD 0 .Cooperate)
  | some ownpm, some otherpm =>
    match ownpm, otherpm with
    | .Cooperate, .Cooperate => some (gene.getD 1 .Cooperate)
    | .Cooperate, .Defect => some (gene.getD 2 .Cooperate)
    | .Defect, .Cooperate => some (gene.getD 3 .Cooperate)
    | .Defect, .Defect => some (gene.getD 4 .Cooperate)
  | some _, none => none
  | none, some _ => none

/-!
## Genetic operators

Randomness is made explicit: a mutation event is an `Option (Fin 5)` —
`none` when the 10%-probability Bernoulli draw did not fire, `some i` when
it fired and the uniformly chosen gene index was `i`.
-/

/-- Embedding of `mutate`: flips the gene at the (randomly chosen) index. -/
def mutate (i : Fin 5) (gene : List Bool) : List Bool :=
  gene.set i (!(gene.getD i false))

/-- Applies the resolved mutation event of one `Bernoulli(0.1)` draw. -/
def applyMutation : Option (Fin 5) → List Bool → List Bool
  | none, g => g
  | some i, g => mutate i g

/-- The crossover loop of `reproduce`: for `i < 3` child 1 copies parent 1
and child 2 copies parent 2, for `3 <= i < 5` the parents swap. -/
def crossover (p1 p2 : List Bool) : List Bool × List Bool :=
  ((List.range GENOME_LENGTH).map fun i =>
      if i < 3 then p1.getD i false else p2.getD i false,
    (List.range GENOME_LENGTH).map fun i =>
      if i < 3 then p2.getD i false else p1.getD i false)

/-- Embedding of `reproduce`: the crossover loop followed by the two
independent 10%-probability mutation events (`m1` for child 1, `m2` for
child 2).  Returns the pair `(child1, child2)`. -/
def reproduce (m1 m2 : Option (Fin 5)) (p1 p2 : List Bool) :
    List Bool × List Bool :=
  let c := crossover p1 p2
  (applyMutation m1 c.1, applyMutation m2 c.2)

/-- Embedding of `get_new_generation`: for each `i < GENERATION_SIZE`
pushes both children of `reproduce(old_gen[i], old_gen[(i+1) % 10])`, then
encodes every genome with `genome_to_number`.  `draws i` resolves the two
mutation draws of iteration `i`. -/
def get_new_generation (draws : Nat → Option (Fin 5) × Option (Fin 5))
    (old_gen : List (List Bool)) : List Nat :=
  let new_gen : List (List Bool) :=
    (List.range GENERATION_SIZE).foldl
      (fun acc i =>
        acc ++
          [(reproduce (draws i).1 (draws i).2 (old_gen.getD i [])
              (old_gen.getD ((i + 1) % GENERATION_SIZE) [])).1,
            (reproduce (draws i).1 (draws i).2 (old_gen.getD i [])
              (old_gen.getD ((i + 1) % GENERATION_SIZE) [])).2])
      []
  new_gen.map genome_to_number

/-!
## Basic facts about the codec and the genetic operators
-/

/-- Helper: `n | 2 ^ i` is never zero, so the decoder's test always fires. -/
lemma lor_pow_ne_zero (n i : Nat) : n ||| 2 ^ i ≠ 0 := by
  intro h
  have ht : (n ||| 2 ^ i).testBit i = true := by
    simp [Nat.testBit_or]
  rw [h] at ht
  simp at ht

/-- Helper: the decoder returns the all-`true` genome on every input. -/
lemma number_to_genome_const (n : Nat) :
    number_to_genome n = [true, true, true, true, true] := by
  simp only [number_to_genome, GENOME_LENGTH,
    show List.range 5 = [0, 1, 2, 3, 4] from rfl, List.map_cons, List.map_nil,
    bne_iff_ne, ne_eq, List.cons.injEq, and_true, decide_eq_true_eq]
  exact ⟨lor_pow_ne_zero n 0, lor_pow_ne_zero n 1, lor_pow_ne_zero n 2,
    lor_pow_ne_zero n 3, lor_pow_ne_zero n 4⟩

/-- Helper: the crossover loop splits the parents at index 3 (for 5-gene
parents it is `take 3` of one parent followed by `drop 3` of the other). -/
lemma crossover_eq (p1 p2 : List Bool) (h1 : p1.length = 5)
    (h2 : p2.length = 5) :
    crossover p1 p2 = (p1.take 3 ++ p2.drop 3, p2.take 3 ++ p1.drop 3) := by
  match p1, h1 with
  | [a, b, c, d, e], _ =>
    match p2, h2 with
    | [v, w, x, y, z], _ => rfl

/-- C1.  The spec's round-trip law is the claim; the code breaks it: the
decoder tests `n | mask != 0` (bitwise OR, vacuously nonzero), so every
decoded genome is all-`true` and `encode(decode(0)) = 31`, not `0`; likewise
`decode(encode(g))` is not `g` for the all-`false` genome.  This evaluates
the embedded code at those failing inputs. -/
theorem genome_codec_roundtrip_fails_eval :
    genome_to_number (number_to_genome 0) = 31 ∧
    number_to_genome 0 = [true, true, true, true, true] ∧
    number_to_genome (genome_to_number [false, false, false, false, false]) ≠
      [false, false, false, false, false] := by
  decide

/-- C5 counterexample.  The claim states that `[true,false,false,false,false]`
encodes to `16` and that `16` decodes back to that genome; the code does
neither. -/
theorem genome_sixteen_counterexample :
    ¬ (genome_to_number [true, false, false, false, false] = 16 ∧
        number_to_genome 16 = [true, false, false, false, false]) := by
  decide

/-- C5 amended.  `genome_to_number` is least-significant-bit-first (gene `i`
contributes `2 ^ i`), so `[true,false,false,false,false]` encodes to `1`;
and `number_to_genome 16` — like every input — returns the all-`true`
genome, because the decoder's OR test sets every gene. -/
theorem genome_sixteen_actual :
    genome_to_number [true, false, false, false, false] = 1 ∧
    number_to_genome 16 = [true, true, true, true, true] := by
  decide

/-- C3 counterexample.  The claim says `reproduce` yields exactly one child
taking even-indexed genes from parent 1 and odd-indexed genes from parent 2;
with parents all-`true` and all-`false` that child would be
`[true,false,true,false,true]`, but the code returns a pair of children and
neither component equals it (mutation not firing). -/
theorem reproduce_even_odd_counterexample :
    (reproduce none none [true, true, true, true, true]
        [false, false, false, false, false]).1 ≠
      [true, false, true, false, true] ∧
    (reproduce none none [true, true, true, true, true]
        [false, false, false, false, false]).2 ≠
      [true, false, true, false, true] := by
  decide

/-- C3 amended.  With mutation not firing, `reproduce(p1, p2)` returns two
children: the first takes genes 0–2 from `p1` and genes 3–4 from `p2`, the
second takes genes 0–2 from `p2` and genes 3–4 from `p1`. -/
theorem reproduce_split (p1 p2 : List Bool) (h1 : p1.length = 5)
    (h2 : p2.length = 5) :
    reproduce none none p1 p2 =
      (p1.take 3 ++ p2.drop 3, p2.take 3 ++ p1.drop 3) := by
  simp [reproduce, applyMutation, crossover_eq p1 p2 h1 h2]

/-- Witness for `reproduce_split` at concrete parents. -/
theorem reproduce_split_witness :
    ([true, true, true, true, true] : List Bool).length = 5 ∧
    ([false, false, false, false, false] : List Bool).length = 5 ∧
    reproduce none none [true, true, true, true, true]
        [false, false, false, false, false] =
      (([true, true, true, true, true] : List Bool).take 3 ++
          ([false, false, false, false, false] : List Bool).drop 3,
        ([false, false, false, false, false] : List Bool).take 3 ++
          ([true, true, true, true, true] : List Bool).drop 3) :=
  ⟨by decide, by decide,
    reproduce_split [true, true, true, true, true]
      [false, false, false, false, false] (by decide) (by decide)⟩

/-- Helper: a fold that only appends to its accumulator is a `flatMap`. -/
lemma foldl_append_eq_flatMap (g : Nat → List (List Bool)) :
    ∀ (l : List Nat) (init : List (List Bool)),
      l.foldl (fun acc i => acc ++ g i) init = init ++ l.flatMap g
  | [], _ => by simp
  | i :: l, init => by
    simp only [List.foldl_cons, List.flatMap_cons,
      foldl_append_eq_flatMap g l (init ++ g i), List.append_assoc]

/-- Concrete parent population used to refute C2: parent 0 is all-`false`,
parent 1 all-`true`, the rest all-`false`. -/
def parentsC2 : List (List Bool) :=
  [false, false, false, false, false] :: [true, true, true, true, true] ::
    List.replicate 8 [false, false, false, false, false]

/-- C2 counterexample.  The claim says the first 10 members of the output of
`get_new_generation` are the 10 parents re-encoded; on `parentsC2` (with no
mutation firing) the first member is `24`, while parent 0 encodes to `0`. -/
theorem get_new_generation_parents_counterexample :
    parentsC2.length = 10 ∧
    ¬ ((get_new_generation (fun _ => (none, none)) parentsC2).take 10 =
        parentsC2.map genome_to_number) := by
  decide

/-- C2 amended.  On 10 parent genomes of 5 genes each, `get_new_generation`
returns 20 encodings, none of them a retained parent: for each
`i ∈ 0..10` it emits, in order, the two children of crossing `parent[i]`
with `parent[(i+1) % 10]` — the first child takes genes 0–2 from
`parent[i]` and genes 3–4 from `parent[(i+1) % 10]`, the second the
converse — each child independently mutated when its 10%-probability draw
fires, then encoded by `genome_to_number`. -/
theorem get_new_generation_children
    (draws : Nat → Option (Fin 5) × Option (Fin 5)) (old_gen : List (List Bool))
    (hlen : old_gen.length = 10) (hg : ∀ g ∈ old_gen, g.length = 5) :
    get_new_generation draws old_gen =
      (List.range 10).flatMap fun i =>
        [genome_to_number (applyMutation (draws i).1
            ((old_gen.getD i []).take 3 ++
              (old_gen.getD ((i + 1) % 10) []).drop 3)),
          genome_to_number (applyMutation (draws i).2
            ((old_gen.getD ((i + 1) % 10) []).take 3 ++
              (old_gen.getD i []).drop 3))] := by
  have hlen5 : ∀ i, i < 10 → (old_gen.getD i []).length = 5 := by
    intro i hi
    have hi' : i < old_gen.length := by omega
    rw [List.getD_eq_getElem _ _ hi']
    exact hg _ (List.getElem_mem hi')
  unfold get_new_generation
  rw [foldl_append_eq_flatMap, List.nil_append, List.map_flatMap]
  refine List.flatMap_congr fun i hi => ?_
  have hi10 : i < 10 := by
    have := List.mem_range.mp hi
    simpa [GENERATION_SIZE] using this
  have hmod : (i + 1) % GENERATION_SIZE = (i + 1) % 10 := rfl
  rw [show (GENERATION_SIZE : Nat) = 10 from rfl] at *
  rw [reproduce, crossover_eq _ _ (hlen5 i hi10)
    (hlen5 _ (Nat.mod_lt _ (by omega)))]
  simp

/-- Witness for `get_new_generation_children` at a concrete population. -/
theorem get_new_generation_children_witness :
    parentsC2.length = 10 ∧ (∀ g ∈ parentsC2, g.length = 5) ∧
    get_new_generation (fun _ => (none, none)) parentsC2 =
      ((List.range 10).flatMap fun i =>
        [genome_to_number (applyMutation none
            ((parentsC2.getD i []).take 3 ++
              (parentsC2.getD ((i + 1) % 10) []).drop 3)),
          genome_to_number (applyMutation none
            ((parentsC2.getD ((i + 1) % 10) []).take 3 ++
              (parentsC2.getD i []).drop 3))]) :=
  ⟨by decide, by decide,
    get_new_generation_children (fun _ => (none, none)) parentsC2
      (by decide) (by decide)⟩

/-- C7 counterexample.  The claim says every strategy panics when exactly
one argument is `None`; but `good_tit_for_tat` only matches on its second
argument, so with `(Some Cooperate, None)` it simply returns `Cooperate`
(modelled as `some`, not the panic value `none`). -/
theorem t4t_single_none_counterexample :
    good_tit_for_tat (some .Cooperate) none = some .Cooperate := rfl

/-- C7 amended.  Only the strategies that inspect both histories signal the
fatal error on exactly one `None` argument: `xor`, `xnor`, `nand` and every
genome-derived strategy return the panic value `none` there, while both
tit-for-tat variants, `opposite_tit_for_tat`, `naive`, `evil` and the two
stochastic strategies return a `Decision` normally. -/
theorem strategy_single_none_behaviour (d : Decision) (gene : List Decision)
    (draw : Bool) :
    (xor (some d) none = none ∧ xor none (some d) = none) ∧
    (xnor (some d) none = none ∧ xnor none (some d) = none) ∧
    (nand (some d) none = none ∧ nand none (some d) = none) ∧
    (genomeStrategy gene (some d) none = none ∧
      genomeStrategy gene none (some d) = none) ∧
    ((good_tit_for_tat (some d) none).isSome = true ∧
      (good_tit_for_tat none (some d)).isSome = true) ∧
    ((sus_tit_for_tat (some d) none).isSome = true ∧
      (sus_tit_for_tat none (some d)).isSome = true) ∧
    ((opposite_tit_for_tat (some d) none).isSome = true ∧
      (opposite_tit_for_tat none (some d)).isSome = true) ∧
    ((naive (some d) none).isSome = true ∧
      (naive none (some d)).isSome = true) ∧
    ((evil (some d) none).isSome = true ∧
      (evil none (some d)).isSome = true) ∧
    ((random (some d) none draw).isSome = true ∧
      (random none (some d) draw).isSome = true) ∧
    ((random_biased (some d) none draw).isSome = true ∧
      (random_biased none (some d) draw).isSome = true) := by
  cases d <;> cases draw <;>
    simp [xor, xnor, nand, and, genomeStrategy, good_tit_for_tat,
      sus_tit_for_tat, opposite_tit_for_tat, naive, evil, random, random_biased]

/-!
## Player memory, Tournament construction and round execution

`HashMap<String, Option<Decision>>` is embedded as an association list with
`HashMap` semantics (`memInsert` replaces an existing key, `memLookup` finds
the first binding).  A strategy value is a function of the two optional
previous moves plus the resolved Bernoulli draw of the call (ignored by the
deterministic strategies); its `none` result models a panic.
-/

/-- A player memory: opponent name to optional previous decision. -/
abbrev Mem := List (String × Option Decision)

/-- `HashMap::get`. -/
def memLookup : Mem → String → Option (Option Decision)
  | [], _ => none
  | (k, v) :: rest, key => if k = key then some v else memLookup rest key

/-- Replace the value stored at `key` wherever it occurs (no-op on an absent
key). -/
def memSet : Mem → String → Option Decision → Mem
  | [], _, _ => []
  | (k, v) :: rest, key, val =>
    if k = key then (k, val) :: memSet rest key val
    else (k, v) :: memSet rest key val

/-- `HashMap::insert`: replaces the binding when present, else adds it. -/
def memInsert (m : Mem) (key : String) (val : Option Decision) : Mem :=
  if (memLookup m key).isSome then memSet m key val else (key, val) :: m

/-- The `remove`-then-`insert` pair of `execute_round_and_update_scores`:
panics (`none`) when the key is absent, otherwise overwrites it. -/
def memUpdate (m : Mem) (key : String) (val : Option Decision) : Option Mem :=
  if (memLookup m key).isSome then some (memSet m key val) else none

/-- A strategy function: previous own move, previous other move, resolved
Bernoulli draw of this call; `none` is a panic. -/
def Strategy := Option Decision → Option Decision → Bool → Option Decision

/-- The `Player` struct. -/
structure Player where
  prev_move_self : Mem
  prev_move_other : Mem
  strategy : Strategy
  strategy_name : String

instance : Inhabited Player :=
  ⟨⟨[], [], fun _ _ _ => none, ("" : String)⟩⟩

/-- The reward-rule type `fn(&Decision, &Decision) -> (i32, i32)`. -/
def RewardFunc := Decision → Decision → Int × Int

/-- The `Tournament` struct.  The score matrix is modelled from the spec:
the external `grid` container is embedded as a total map from the
(canonical-player index, opponent index) pair to the
`(opponent-side, player-side)` cell, zero-initialised. -/
structure Tournament where
  players : List Player
  opponents : List Player
  scores : Nat → Nat → Int × Int
  max_iter : Nat
  rewardsystem : RewardFunc

/-- The static `PLAYER_INIT_DATA` table of `Tournament::from`. -/
def PLAYER_INIT_DATA : List (String × Strategy) :=
  [("trusting\nt4t", fun own other _ => good_tit_for_tat own other),
    ("suspicious\nt4t", fun own other _ => sus_tit_for_tat own other),
    ("naive", fun own other _ => naive own other),
    ("evil", fun own other _ => evil own other),
    ("random", fun own other draw => random own other draw),
    ("xor", fun own other _ => xor own other),
    ("opposite\nt4t", fun own other _ => opposite_tit_for_tat own other),
    ("xnor", fun own other _ => xnor own other),
    ("nand", fun own other _ => nand own other),
    ("Bernoulli", fun own other draw => random_biased own other draw)]

/-- Memory initialisation loop: insert `None` for every known name. -/
def initMemory (names : List String) : Mem :=
  names.foldl (fun m nm => memInsert m nm none) []

/-- The opponent display names: `(pop[n] as i32).to_string()` for
`n < POPULATION_SIZE`. -/
def opponentNames (pop : List Nat) : List String :=
  (List.range POPULATION_SIZE).map fun n => toString (pop.getD n 0)

/-- One canonical player as built by `Tournament::from`. -/
def mkPlayer (nm : String) (strat : Strategy) (oppNames : List String) :
    Player :=
  { prev_move_self := initMemory oppNames
    prev_move_other := initMemory oppNames
    strategy := strat
    strategy_name := nm }

/-- One genome-encoded opponent as built by `Tournament::from`: its gene
vector decodes `c` (true becomes `Cooperate`), its name is the decimal
rendering of `c`. -/
def mkOpponent (c : Nat) (playerNames : List String) : Player :=
  { prev_move_self := initMemory playerNames
    prev_move_other := initMemory playerNames
    strategy := fun own other _ =>
      genomeStrategy
        ((number_to_genome c).map fun b =>
          if b then Decision.Cooperate else Decision.Defect) own other
    strategy_name := toString c }

/-- `Tournament::from`. -/
def Tournament.mk_from (n_iter : Nat) (rules : RewardFunc) (pop : List Nat) :
    Tournament :=
  { players := PLAYER_INIT_DATA.map fun pr => mkPlayer pr.1 pr.2 (opponentNames pop)
    opponents := pop.map fun c => mkOpponent c (PLAYER_INIT_DATA.map fun pr => pr.1)
    scores := fun _ _ => (0, 0)
    max_iter := n_iter
    rewardsystem := rules }

/-- `execute_round_and_update_scores` for the pair (player `i`, opponent
`j`); `pd` and `od` resolve the Bernoulli draws available to the two
strategy calls; `none` models any panic (missing index, memory miss or a
strategy's unreachable branch). -/
def execute_round_and_update_scores (t : Tournament) (pd od : Bool)
    (i j : Nat) : Option Tournament := do
  let player ← t.players.get? i
  let opponent ← t.opponents.get? j
  let pps ← memLookup player.prev_move_self opponent.strategy_name
  let ppo ← memLookup player.prev_move_other opponent.strategy_name
  let ops ← memLookup opponent.prev_move_self player.strategy_name
  let opo ← memLookup opponent.prev_move_other player.strategy_name
  let player_decision ← player.strategy pps ppo pd
  let opponent_decision ← opponent.strategy ops opo od
  let ps ← memUpdate player.prev_move_self opponent.strategy_name
    (some player_decision)
  let po ← memUpdate player.prev_move_other opponent.strategy_name
    (some opponent_decision)
  let os ← memUpdate opponent.prev_move_self player.strategy_name
    (some opponent_decision)
  let oo ← memUpdate opponent.prev_move_other player.strategy_name
    (some player_decision)
  some { t with
    players := t.players.set i
      { player with prev_move_self := ps, prev_move_other := po }
    opponents := t.opponents.set j
      { opponent with prev_move_self := os, prev_move_other := oo }
    scores := fun a b =>
      if a = i ∧ b = j then
        ((t.scores i j).1 + (t.rewardsystem opponent_decision player_decision).1,
          (t.scores i j).2 + (t.rewardsystem opponent_decision player_decision).2)
      else t.scores a b }

/-- The deterministic round order of `run`: for every iteration, opponents
outer (`j < POPULATION_SIZE`), canonical players inner (`i < 10`). -/
def schedule (max_iter : Nat) : List (Nat × Nat) :=
  (List.range max_iter).flatMap fun _ =>
    (List.range POPULATION_SIZE).flatMap fun j =>
      (List.range 10).map fun i => (i, j)

/-- Executes a list of rounds in order, threading the round counter `k`
into the draw oracle; aborts (`none`) as soon as one round panics. -/
def runRounds (draws : Nat → Bool × Bool) :
    List (Nat × Nat) → Nat → Tournament → Option Tournament
  | [], _, t => some t
  | ij :: rest, k, t =>
    match execute_round_and_update_scores t (draws k).1 (draws k).2 ij.1 ij.2 with
    | none => none
    | some t2 => runRounds draws rest (k + 1) t2

/-- `Tournament::run`. -/
def Tournament.run (draws : Nat → Bool × Bool) (t : Tournament) :
    Option Tournament :=
  runRounds draws (schedule t.max_iter) 0 t

/-- `prisoners_dillemma_rules`: the canonical Prisoner's Dilemma payoffs. -/
def prisoners_dillemma_rules (p1move p2move : Decision) : Int × Int :=
  match p1move, p2move with
  | .Cooperate, .Cooperate => (-1, -1)
  | .Cooperate, .Defect => (-3, 0)
  | .Defect, .Cooperate => (0, -3)
  | .Defect, .Defect => (-2, -2)

/-!
## Fitness selection

`Vec::sort_by_key` is a stable ascending sort; it is embedded as insertion
sort with the non-strict key order (equal keys keep their original relative
order there, exactly the stability contract of the Rust sort).
-/

/-- The ascending key order used by `score_acc.sort_by_key(|&(_, n)| n)`. -/
def ascending (a b : Nat × Int) : Prop := a.2 ≤ b.2

instance : DecidableRel ascending :=
  fun a b => inferInstanceAs (Decidable (a.2 ≤ b.2))

/-- Strict descending key order: an insertion sort with this relation ranks
descending with equal keys in reverse original order. -/
def descendingStrict (a b : Nat × Int) : Prop := b.2 < a.2

instance : DecidableRel descendingStrict :=
  fun a b => inferInstanceAs (Decidable (b.2 < a.2))

/-- Non-strict descending key order: an insertion sort with this relation
ranks descending with equal keys in original order (the stable descending
ranking that claim C4 describes). -/
def descendingStable (a b : Nat × Int) : Prop := b.2 ≤ a.2

instance : DecidableRel descendingStable :=
  fun a b => inferInstanceAs (Decidable (b.2 ≤ a.2))

/-- The decimal parse `str.parse::<u8>()` of the standard library, modelled
at the character level (digit fold); `none` models the parse failure that
`unwrap` turns into a panic.  The opponent names produced by construction
are decimal renderings of numbers below 256, on which this model is exact. -/
def parseNat (s : String) : Option Nat :=
  if s.data ≠ [] ∧ s.data.all (fun c => c.isDigit) then
    some (s.data.foldl (fun acc c => acc * 10 + (c.toNat - 48)) 0)
  else none

/-- The accumulation loop of `select_ten_fittest`: for every opponent column
`j`, pairs the organism encoding parsed back from the opponent's name with
the sum of the opponent-side (first) components of its score column; `none`
models the `parse().unwrap()` panic. -/
def score_acc_list (t : Tournament) : Option (List (Nat × Int)) :=
  (List.range POPULATION_SIZE).mapM fun j =>
    (parseNat (t.opponents.getD j default).strategy_name).map fun organism =>
      (organism, ((List.range 10).map fun i => (t.scores i j).1).sum)

/-- `score_acc` after `sort_by_key` (stable ascending) and `reverse`. -/
def ranked_score_acc (t : Tournament) : Option (List (Nat × Int)) :=
  (score_acc_list t).map fun l =>
    (List.insertionSort ascending l).reverse

/-- `select_ten_fittest`: decodes every ranked organism and keeps the first
ten (the source's pop-from-the-back loop keeps exactly the first ten
entries). -/
def select_ten_fittest (t : Tournament) : Option (List (List Bool)) :=
  (ranked_score_acc t).map fun l =>
    (l.map fun p => number_to_genome p.1).take 10

/-!
## C6: opponent identity uniqueness
-/

/-- Helper: decimal rendering is injective on the integers below 32. -/
lemma toString_inj_lt32 :
    ∀ a : Fin 32, ∀ b : Fin 32, toString a.1 = toString b.1 → a = b := by
  decide

/-- C6 counterexample.  The all-zero population is a valid construction
input (20 integers in `[0,31]`), yet all 20 opponents get the same
display name, so the names are not pairwise distinct. -/
theorem opponent_names_duplicate_counterexample :
    (List.replicate 20 (0 : Nat)).length = 20 ∧
    (List.replicate 20 (0 : Nat)).all (fun c => c < 32) = true ∧
    ¬ ((Tournament.mk_from 1 prisoners_dillemma_rules
          (List.replicate 20 (0 : Nat))).opponents.map
        Player.strategy_name).Nodup := by
  exact ⟨by decide, by decide, by decide⟩

/-- C6 amended.  The canonical panel's ten names are pairwise distinct, and
the 20 opponents carry pairwise-distinct `strategy_name` values provided the
20 input integers are themselves pairwise distinct (the name is the decimal
rendering of the encoding, which is injective on `[0,31]`; duplicate input
encodings yield duplicate names). -/
theorem opponent_names_distinct_of_nodup (n_iter : Nat) (rules : RewardFunc)
    (pop : List Nat) (_hl20 : pop.length = 20) (hlt : ∀ c ∈ pop, c < 32)
    (hnd : pop.Nodup) :
    ((Tournament.mk_from n_iter rules pop).opponents.map
        Player.strategy_name).Nodup ∧
    (PLAYER_INIT_DATA.map fun pr => pr.1).Nodup := by
  have hmap : (Tournament.mk_from n_iter rules pop).opponents.map
      Player.strategy_name = pop.map fun c => toString c := by
    simp [Tournament.mk_from, mkOpponent, List.map_map, Function.comp]
  rw [hmap]
  refine ⟨List.Nodup.map_on ?_ hnd, by decide⟩
  intro x hx y hy hxy
  have hfin : (⟨x, hlt x hx⟩ : Fin 32) = ⟨y, hlt y hy⟩ :=
    toString_inj_lt32 ⟨x, hlt x hx⟩ ⟨y, hlt y hy⟩ hxy
  simpa using hfin

/-- Witness for `opponent_names_distinct_of_nodup` on the population
`0, 1, ..., 19`. -/
theorem opponent_names_distinct_witness :
    (List.range 20).length = 20 ∧ (∀ c ∈ List.range 20, c < 32) ∧
    (List.range 20).Nodup ∧
    (((Tournament.mk_from 1 prisoners_dillemma_rules
        (List.range 20)).opponents.map Player.strategy_name).Nodup ∧
      (PLAYER_INIT_DATA.map fun pr => pr.1).Nodup) :=
  ⟨by decide, by decide, by decide,
    opponent_names_distinct_of_nodup 1 prisoners_dillemma_rules
      (List.range 20) (by decide) (by decide) (by decide)⟩

/-!
## C8: the tit-for-tat versus evil scenario

The scenario tournament pairs the canonical trusting tit-for-tat player
against an `evil`-strategy opponent under the Prisoner's Dilemma rules and
runs the engine's own round executor three times on the single pair.
-/

/-- Scenario setup for C8 (spec §8, third scenario). -/
def t4tEvilTournament : Tournament :=
  { players := [mkPlayer ("trusting\nt4t" : String)
      (fun own other _ => good_tit_for_tat own other) [("evil" : String)]]
    opponents := [{ prev_move_self := initMemory [("trusting\nt4t" : String)]
                    prev_move_other := initMemory [("trusting\nt4t" : String)]
                    strategy := fun own other _ => evil own other
                    strategy_name := ("evil" : String) }]
    scores := fun _ _ => (0, 0)
    max_iter := 3
    rewardsystem := prisoners_dillemma_rules }

/-- The scenario state after `n` executed rounds of the single pair. -/
def t4tEvilAfter : Nat → Option Tournament
  | 0 => some t4tEvilTournament
  | n + 1 => (t4tEvilAfter n).bind fun t =>
      execute_round_and_update_scores t true true 0 0

/-- C8.  Trusting tit-for-tat versus evil over three rounds: round 1 is
(Cooperate, Defect) with payoffs (-3, 0); rounds 2 and 3 are
(Defect, Defect) with payoffs (-2, -2); the cumulative cell (stored as
(opponent-side, player-side)) ends at (-4, -7): tit-for-tat totals -7 and
evil totals -4.  The recorded memories after each round exhibit the two
decisions of that round. -/
theorem t4t_vs_evil_three_rounds :
    ((t4tEvilAfter 1).map fun t =>
        (memLookup (t.players.getD 0 default).prev_move_self ("evil" : String),
          memLookup (t.players.getD 0 default).prev_move_other ("evil" : String),
          t.scores 0 0)) =
      some (some (some .Cooperate), some (some .Defect), (0, -3)) ∧
    ((t4tEvilAfter 2).map fun t =>
        (memLookup (t.players.getD 0 default).prev_move_self ("evil" : String),
          memLookup (t.players.getD 0 default).prev_move_other ("evil" : String),
          t.scores 0 0)) =
      some (some (some .Defect), some (some .Defect), (-2, -5)) ∧
    ((t4tEvilAfter 3).map fun t =>
        (memLookup (t.players.getD 0 default).prev_move_self ("evil" : String),
          memLookup (t.players.getD 0 default).prev_move_other ("evil" : String),
          t.scores 0 0)) =
      some (some (some .Defect), some (some .Defect), (-4, -7)) := by
  exact ⟨by decide, by decide, by decide⟩

/-!
## Memory-map lemmas
-/

/-- Looking up after `memSet`: the set key's binding is overwritten when it
exists, every other key is untouched. -/
lemma memLookup_memSet (m : Mem) (key k : String) (v : Option Decision) :
    memLookup (memSet m key v) k =
      if k = key then (memLookup m k).map (fun _ => v) else memLookup m k := by
  induction m with
  | nil => by_cases h : k = key <;> simp [memSet, memLookup, h]
  | cons p rest ih =>
    obtain ⟨k0, v0⟩ := p
    by_cases h1 : k0 = key
    · subst h1
      by_cases h2 : k0 = k
      · subst h2
        simp [memSet, memLookup]
      · have hk : ¬ k = k0 := fun hkk => h2 hkk.symm
        simp [memSet, memLookup, ih, hk, h2]
    · by_cases h2 : k0 = k
      · subst h2
        simp [memSet, memLookup, ih, h1]
      · simp [memSet, memLookup, ih, h1, h2]

/-- `memSet` preserves the key set. -/
lemma memLookup_memSet_isSome (m : Mem) (key k : String) (v : Option Decision) :
    (memLookup (memSet m key v) k).isSome = (memLookup m k).isSome := by
  rw [memLookup_memSet]
  split <;> simp

/-- Looking up after `memInsert`. -/
lemma memLookup_memInsert (m : Mem) (key k : String) (v : Option Decision) :
    memLookup (memInsert m key v) k = if k = key then some v else memLookup m k := by
  unfold memInsert
  by_cases hp : (memLookup m key).isSome
  · rw [if_pos hp, memLookup_memSet]
    by_cases h : k = key
    · subst h
      obtain ⟨w, hw⟩ := Option.isSome_iff_exists.mp hp
      simp [hw]
    · simp [h]
  · rw [if_neg hp]
    by_cases h : k = key
    · subst h
      simp [memLookup]
    · have hk : ¬ key = k := fun hkk => h hkk.symm
      simp [memLookup, h, hk]

/-- Looking up an `initMemory`-style fold. -/
lemma memLookup_foldl_insert (names : List String) (m : Mem) (k : String) :
    memLookup (names.foldl (fun acc nm => memInsert acc nm none) m) k =
      if k ∈ names then some none else memLookup m k := by
  induction names generalizing m with
  | nil => simp
  | cons nm rest ih =>
    simp only [List.foldl_cons, ih, memLookup_memInsert, List.mem_cons]
    by_cases h1 : k ∈ rest <;> by_cases h2 : k = nm <;> simp [h1, h2]

/-- Looking up a freshly initialised memory: `None` (no prior move) for
every known name, a miss for unknown names. -/
lemma memLookup_initMemory (names : List String) (k : String) :
    memLookup (initMemory names) k =
      if k ∈ names then some none else none := by
  rw [initMemory, memLookup_foldl_insert]
  rfl

/-!
## Characterisation of a successful round
-/

/-- Decomposition of a successful monadic step on `Option`. -/
lemma bind_eq_some' {α β : Type} {x : Option α} {f : α → Option β} {b : β}
    (h : x >>= f = some b) : ∃ a, x = some a ∧ f a = some b := by
  cases x with
  | none => exact absurd h (by simp)
  | some a => exact ⟨a, rfl, h⟩

/-- A monadic step on a present value reduces to the continuation. -/
lemma some_bind' {α β : Type} (a : α) (f : α → Option β) :
    (some a >>= f) = f a := rfl

/-- A successful `memUpdate` returns the `memSet` result. -/
lemma memUpdate_eq_some {m : Mem} {k : String} {v : Option Decision}
    {m2 : Mem} (h : memUpdate m k v = some m2) : m2 = memSet m k v := by
  unfold memUpdate at h
  split at h
  · exact (Option.some_inj.mp h).symm
  · exact absurd h (by simp)

/-- Inversion: a successful `execute_round_and_update_scores` call found
both parties, found all four memory entries, obtained a decision from both
strategies, and overwrote the four memory entries with the two decisions. -/
lemma execute_round_inversion (t : Tournament) (pd od : Bool) (i j : Nat)
    (t' : Tournament)
    (h : execute_round_and_update_scores t pd od i j = some t') :
    ∃ player opponent pps ppo ops opo player_decision opponent_decision,
      t.players.get? i = some player ∧
      t.opponents.get? j = some opponent ∧
      memLookup player.prev_move_self opponent.strategy_name = some pps ∧
      memLookup player.prev_move_other opponent.strategy_name = some ppo ∧
      memLookup opponent.prev_move_self player.strategy_name = some ops ∧
      memLookup opponent.prev_move_other player.strategy_name = some opo ∧
      player.strategy pps ppo pd = some player_decision ∧
      opponent.strategy ops opo od = some opponent_decision ∧
      t'.players = t.players.set i
        { player with
            prev_move_self := memSet player.prev_move_self
              opponent.strategy_name (some player_decision)
            prev_move_other := memSet player.prev_move_other
              opponent.strategy_name (some opponent_decision) } ∧
      t'.opponents = t.opponents.set j
        { opponent with
            prev_move_self := memSet opponent.prev_move_self
              player.strategy_name (some opponent_decision)
            prev_move_other := memSet opponent.prev_move_other
              player.strategy_name (some player_decision) } ∧
      t'.max_iter = t.max_iter ∧ t'.rewardsystem = t.rewardsystem := by
  unfold execute_round_and_update_scores at h
  obtain ⟨player, hp, h⟩ := bind_eq_some' h
  obtain ⟨opponent, ho, h⟩ := bind_eq_some' h
  obtain ⟨pps, hm1, h⟩ := bind_eq_some' h
  obtain ⟨ppo, hm2, h⟩ := bind_eq_some' h
  obtain ⟨ops, hm3, h⟩ := bind_eq_some' h
  obtain ⟨opo, hm4, h⟩ := bind_eq_some' h
  obtain ⟨pdec, hs1, h⟩ := bind_eq_some' h
  obtain ⟨odec, hs2, h⟩ := bind_eq_some' h
  obtain ⟨ps, hps, h⟩ := bind_eq_some' h
  obtain ⟨po, hpo, h⟩ := bind_eq_some' h
  obtain ⟨os, hos, h⟩ := bind_eq_some' h
  obtain ⟨oo, hoo, heq⟩ := bind_eq_some' h
  obtain rfl : ps = memSet player.prev_move_self opponent.strategy_name
      (some pdec) := memUpdate_eq_some hps
  obtain rfl : po = memSet player.prev_move_other opponent.strategy_name
      (some odec) := memUpdate_eq_some hpo
  obtain rfl : os = memSet opponent.prev_move_self player.strategy_name
      (some odec) := memUpdate_eq_some hos
  obtain rfl : oo = memSet opponent.prev_move_other player.strategy_name
      (some pdec) := memUpdate_eq_some hoo
  obtain rfl : _ = t' := Option.some_inj.mp heq
  exact ⟨player, opponent, pps, ppo, ops, opo, pdec, odec,
    hp, ho, hm1, hm2, hm3, hm4, hs1, hs2, rfl, rfl, rfl, rfl⟩

/-- C9.  After any successfully executed match between canonical player `i`
and opponent `j`, the two parties' memories are symmetric for that pair:
the player's recorded other-move equals the opponent's recorded own-move,
and the player's recorded own-move equals the opponent's recorded
other-move. -/
theorem match_memory_symmetry (t : Tournament) (pd od : Bool) (i j : Nat)
    (h : (execute_round_and_update_scores t pd od i j).isSome = true) :
    memLookup (((execute_round_and_update_scores t pd od i j).get
          h).players.getD i default).prev_move_other
        (t.opponents.getD j default).strategy_name =
      memLookup (((execute_round_and_update_scores t pd od i j).get
          h).opponents.getD j default).prev_move_self
        (t.players.getD i default).strategy_name ∧
    memLookup (((execute_round_and_update_scores t pd od i j).get
          h).players.getD i default).prev_move_self
        (t.opponents.getD j default).strategy_name =
      memLookup (((execute_round_and_update_scores t pd od i j).get
          h).opponents.getD j default).prev_move_other
        (t.players.getD i default).strategy_name := by
  obtain ⟨t', ht'⟩ := Option.isSome_iff_exists.mp h
  obtain ⟨player, opponent, pps, ppo, ops, opo, pdec, odec, hp, ho, hm1, hm2,
    hm3, hm4, _, _, hpl, hop, _, _⟩ := execute_round_inversion t pd od i j t' ht'
  have hget : (execute_round_and_update_scores t pd od i j).get h = t' := by
    simp [ht']
  rw [List.get?_eq_getElem?] at hp ho
  obtain ⟨hi, hgi⟩ := List.getElem?_eq_some.mp hp
  obtain ⟨hj, hgj⟩ := List.getElem?_eq_some.mp ho
  have hPi : t.players.getD i default = player := by
    rw [List.getD_eq_getElem _ _ hi, hgi]
  have hPj : t.opponents.getD j default = opponent := by
    rw [List.getD_eq_getElem _ _ hj, hgj]
  have hPi' : t'.players.getD i default =
      { player with
          prev_move_self := memSet player.prev_move_self
            opponent.strategy_name (some pdec)
          prev_move_other := memSet player.prev_move_other
            opponent.strategy_name (some odec) } := by
    rw [hpl]
    rw [List.getD_eq_getElem _ _ (by rw [List.length_set]; exact hi)]
    exact List.getElem_set_self _
  have hPj' : t'.opponents.getD j default =
      { opponent with
          prev_move_self := memSet opponent.prev_move_self
            player.strategy_name (some odec)
          prev_move_other := memSet opponent.prev_move_other
            player.strategy_name (some pdec) } := by
    rw [hop]
    rw [List.getD_eq_getElem _ _ (by rw [List.length_set]; exact hj)]
    exact List.getElem_set_self _
  rw [hget, hPi, hPj, hPi', hPj']
  constructor
  · show memLookup (memSet player.prev_move_other
        opponent.strategy_name (some odec)) opponent.strategy_name =
      memLookup (memSet opponent.prev_move_self
        player.strategy_name (some odec)) player.strategy_name
    rw [memLookup_memSet, memLookup_memSet, if_pos rfl, if_pos rfl, hm2, hm3]
    rfl
  · show memLookup (memSet player.prev_move_self
        opponent.strategy_name (some pdec)) opponent.strategy_name =
      memLookup (memSet opponent.prev_move_other
        player.strategy_name (some pdec)) player.strategy_name
    rw [memLookup_memSet, memLookup_memSet, if_pos rfl, if_pos rfl, hm1, hm4]
    rfl

/-- Witness for `match_memory_symmetry` on the concrete scenario
tournament. -/
theorem match_memory_symmetry_witness :
    memLookup (((execute_round_and_update_scores t4tEvilTournament true true 0 0).get
          (by decide)).players.getD 0 default).prev_move_other
        (t4tEvilTournament.opponents.getD 0 default).strategy_name =
      memLookup (((execute_round_and_update_scores t4tEvilTournament true true 0 0).get
          (by decide)).opponents.getD 0 default).prev_move_self
        (t4tEvilTournament.players.getD 0 default).strategy_name ∧
    memLookup (((execute_round_and_update_scores t4tEvilTournament true true 0 0).get
          (by decide)).players.getD 0 default).prev_move_self
        (t4tEvilTournament.opponents.getD 0 default).strategy_name =
      memLookup (((execute_round_and_update_scores t4tEvilTournament true true 0 0).get
          (by decide)).opponents.getD 0 default).prev_move_other
        (t4tEvilTournament.players.getD 0 default).strategy_name :=
  match_memory_symmetry t4tEvilTournament true true 0 0 (by decide)

/-!
## C10: the memory invariant and abort-freedom of `run`
-/

/-- Strategy totality on aligned histories: the strategy returns a decision
on a first encounter and on a full history, for every draw (only the mixed
argument combinations may panic). -/
def StratTotal (s : Strategy) : Prop :=
  (∀ d : Bool, (s none none d).isSome = true) ∧
  (∀ a b : Decision, ∀ d : Bool, (s (some a) (some b) d).isSome = true)

/-- Per-player memory alignment: `prev_move_self` and `prev_move_other`
bind exactly the same key set, and for every key the two stored values are
both `None` or both `Some`. -/
def MemAligned (p : Player) : Prop :=
  ∀ k, (memLookup p.prev_move_self k).map Option.isSome =
    (memLookup p.prev_move_other k).map Option.isSome

/-- The tournament invariant: panel sizes, alignment and totality for every
member, and cross-completeness of the memory key sets. -/
def Inv (t : Tournament) : Prop :=
  t.players.length = 10 ∧ t.opponents.length = POPULATION_SIZE ∧
  (∀ p ∈ t.players, MemAligned p ∧ StratTotal p.strategy) ∧
  (∀ q ∈ t.opponents, MemAligned q ∧ StratTotal q.strategy) ∧
  (∀ p ∈ t.players, ∀ q ∈ t.opponents,
    (memLookup p.prev_move_self q.strategy_name).isSome = true ∧
    (memLookup q.prev_move_self p.strategy_name).isSome = true)

/-- Tournaments reachable from a start state by any sequence of
successfully executed rounds. -/
inductive Reachable : Tournament → Tournament → Prop
  | refl (t : Tournament) : Reachable t t
  | step {t t1 t2 : Tournament} (pd od : Bool) (i j : Nat) :
      Reachable t t1 →
      execute_round_and_update_scores t1 pd od i j = some t2 →
      Reachable t t2

/-- Alignment transfers along `Option.map Option.isSome` to the values. -/
lemma MemAligned.values {p : Player} (h : MemAligned p) {k : String}
    {v w : Option Decision}
    (hv : memLookup p.prev_move_self k = some v)
    (hw : memLookup p.prev_move_other k = some w) :
    v.isSome = w.isSome := by
  have := h k
  rw [hv, hw] at this
  simpa using this

/-- A player after the round's double overwrite stays aligned. -/
lemma memAligned_update {p : Player} (h : MemAligned p) (key : String)
    (d1 d2 : Decision) :
    MemAligned { p with
      prev_move_self := memSet p.prev_move_self key (some d1)
      prev_move_other := memSet p.prev_move_other key (some d2) } := by
  intro k
  show (memLookup (memSet p.prev_move_self key (some d1)) k).map Option.isSome =
    (memLookup (memSet p.prev_move_other key (some d2)) k).map Option.isSome
  rw [memLookup_memSet, memLookup_memSet]
  by_cases hk : k = key
  · rw [if_pos hk, if_pos hk]
    have := h k
    cases hx : memLookup p.prev_move_self k with
    | none =>
      cases hy : memLookup p.prev_move_other k with
      | none => simp
      | some w => rw [hx, hy] at this; simp at this
    | some v =>
      cases hy : memLookup p.prev_move_other k with
      | none => rw [hx, hy] at this; simp at this
      | some w => simp
  · rw [if_neg hk, if_neg hk]
    exact h k

/-- Progress: under the invariant, a round on an in-range pair succeeds. -/
lemma execute_round_isSome {t : Tournament} (hinv : Inv t) {i j : Nat}
    (hi : i < 10) (hj : j < POPULATION_SIZE) (pd od : Bool) :
    (execute_round_and_update_scores t pd od i j).isSome = true := by
  obtain ⟨hlp, hlo, hply, hopp, hcomp⟩ := hinv
  have hi' : i < t.players.length := by rw [hlp]; exact hi
  have hj' : j < t.opponents.length := by rw [hlo]; exact hj
  have hp : t.players.get? i = some (t.players.get ⟨i, hi'⟩) := List.get?_eq_get hi'
  have ho : t.opponents.get? j = some (t.opponents.get ⟨j, hj'⟩) := List.get?_eq_get hj'
  set player := t.players.get ⟨i, hi'⟩ with hplayer
  set opponent := t.opponents.get ⟨j, hj'⟩ with hopponent
  have hpm : player ∈ t.players := by rw [hplayer]; exact List.get_mem _ _ _
  have hom : opponent ∈ t.opponents := by rw [hopponent]; exact List.get_mem _ _ _
  obtain ⟨hpal, hpst⟩ := hply player hpm
  obtain ⟨hoal, host⟩ := hopp opponent hom
  obtain ⟨hc1, hc2⟩ := hcomp player hpm opponent hom
  obtain ⟨pps, hm1⟩ := Option.isSome_iff_exists.mp hc1
  have hm2' : (memLookup player.prev_move_other opponent.strategy_name).isSome = true := by
    have := hpal opponent.strategy_name
    rw [hm1] at this
    cases hx : memLookup player.prev_move_other opponent.strategy_name with
    | none => rw [hx] at this; simp at this
    | some w => rfl
  obtain ⟨ppo, hm2⟩ := Option.isSome_iff_exists.mp hm2'
  obtain ⟨ops, hm3⟩ := Option.isSome_iff_exists.mp hc2
  have hm4' : (memLookup opponent.prev_move_other player.strategy_name).isSome = true := by
    have := hoal player.strategy_name
    rw [hm3] at this
    cases hx : memLookup opponent.prev_move_other player.strategy_name with
    | none => rw [hx] at this; simp at this
    | some w => rfl
  obtain ⟨opo, hm4⟩ := Option.isSome_iff_exists.mp hm4'
  have hvals1 : pps.isSome = ppo.isSome := hpal.values hm1 hm2
  have hvals2 : ops.isSome = opo.isSome := hoal.values hm3 hm4
  have hs1 : (player.strategy pps ppo pd).isSome = true := by
    cases hpps : pps with
    | none =>
      cases hppo : ppo with
      | none => exact hpst.1 pd
      | some b => rw [hpps, hppo] at hvals1; simp at hvals1
    | some a =>
      cases hppo : ppo with
      | none => rw [hpps, hppo] at hvals1; simp at hvals1
      | some b => exact hpst.2 a b pd
  have hs2 : (opponent.strategy ops opo od).isSome = true := by
    cases hops : ops with
    | none =>
      cases hopo : opo with
      | none => exact host.1 od
      | some b => rw [hops, hopo] at hvals2; simp at hvals2
    | some a =>
      cases hopo : opo with
      | none => rw [hops, hopo] at hvals2; simp at hvals2
      | some b => exact host.2 a b od
  obtain ⟨pdec, hs1'⟩ := Option.isSome_iff_exists.mp hs1
  obtain ⟨odec, hs2'⟩ := Option.isSome_iff_exists.mp hs2
  unfold execute_round_and_update_scores
  rw [hp, some_bind', ho, some_bind', hm1, some_bind', hm2,
    some_bind', hm3, some_bind', hm4, some_bind',
    hs1', some_bind', hs2', some_bind']
  rw [show memUpdate player.prev_move_self opponent.strategy_name (some pdec) =
      some (memSet player.prev_move_self opponent.strategy_name (some pdec)) by
    unfold memUpdate; rw [if_pos hc1]]
  rw [some_bind']
  rw [show memUpdate player.prev_move_other opponent.strategy_name (some odec) =
      some (memSet player.prev_move_other opponent.strategy_name (some odec)) by
    unfold memUpdate; rw [if_pos hm2']]
  rw [some_bind']
  rw [show memUpdate opponent.prev_move_self player.strategy_name (some odec) =
      some (memSet opponent.prev_move_self player.strategy_name (some odec)) by
    unfold memUpdate; rw [if_pos hc2]]
  rw [some_bind']
  rw [show memUpdate opponent.prev_move_other player.strategy_name (some pdec) =
      some (memSet opponent.prev_move_other player.strategy_name (some pdec)) by
    unfold memUpdate; rw [if_pos hm4']]
  rw [some_bind']
  rfl

/-- Preservation: a successful round keeps the invariant. -/
lemma execute_round_preserves_inv {t t' : Tournament} {pd od : Bool}
    {i j : Nat} (hinv : Inv t)
    (h : execute_round_and_update_scores t pd od i j = some t') : Inv t' := by
  obtain ⟨hlp, hlo, hply, hopp, hcomp⟩ := hinv
  obtain ⟨player, opponent, pps, ppo, ops, opo, pdec, odec, hp, ho, hm1, hm2,
    hm3, hm4, hs1, hs2, hpl, hop, hmx, hrw⟩ :=
    execute_round_inversion t pd od i j t' h
  rw [List.get?_eq_getElem?] at hp ho
  obtain ⟨hi, hgi⟩ := List.getElem?_eq_some.mp hp
  obtain ⟨hj, hgj⟩ := List.getElem?_eq_some.mp ho
  have hpm : player ∈ t.players := hgi ▸ List.getElem_mem hi
  have hom : opponent ∈ t.opponents := hgj ▸ List.getElem_mem hj
  have hplayer_cases : ∀ p ∈ t'.players, p ∈ t.players ∨
      p = { player with
        prev_move_self := memSet player.prev_move_self
          opponent.strategy_name (some pdec)
        prev_move_other := memSet player.prev_move_other
          opponent.strategy_name (some odec) } := by
    intro p hmem
    rw [hpl] at hmem
    exact List.mem_or_eq_of_mem_set hmem
  have hopponent_cases : ∀ q ∈ t'.opponents, q ∈ t.opponents ∨
      q = { opponent with
        prev_move_self := memSet opponent.prev_move_self
          player.strategy_name (some odec)
        prev_move_other := memSet opponent.prev_move_other
          player.strategy_name (some pdec) } := by
    intro q hmem
    rw [hop] at hmem
    exact List.mem_or_eq_of_mem_set hmem
  refine ⟨by rw [hpl, List.length_set]; exact hlp,
    by rw [hop, List.length_set]; exact hlo, ?_, ?_, ?_⟩
  · intro p hmem
    rcases hplayer_cases p hmem with hold | rfl
    · exact hply p hold
    · exact ⟨memAligned_update (hply player hpm).1 _ _ _, (hply player hpm).2⟩
  · intro q hmem
    rcases hopponent_cases q hmem with hold | rfl
    · exact hopp q hold
    · exact ⟨memAligned_update (hopp opponent hom).1 _ _ _,
        (hopp opponent hom).2⟩
  · intro p hmemp q hmemq
    obtain ⟨p0, hp0mem, hpname, hpself⟩ :
        ∃ p0 ∈ t.players, p.strategy_name = p0.strategy_name ∧
          ∀ k, (memLookup p.prev_move_self k).isSome =
            (memLookup p0.prev_move_self k).isSome := by
      rcases hplayer_cases p hmemp with hold | rfl
      · exact ⟨p, hold, rfl, fun k => rfl⟩
      · exact ⟨player, hpm, rfl, fun k => memLookup_memSet_isSome _ _ _ _⟩
    obtain ⟨q0, hq0mem, hqname, hqself⟩ :
        ∃ q0 ∈ t.opponents, q.strategy_name = q0.strategy_name ∧
          ∀ k, (memLookup q.prev_move_self k).isSome =
            (memLookup q0.prev_move_self k).isSome := by
      rcases hopponent_cases q hmemq with hold | rfl
      · exact ⟨q, hold, rfl, fun k => rfl⟩
      · exact ⟨opponent, hom, rfl, fun k => memLookup_memSet_isSome _ _ _ _⟩
    obtain ⟨hA, hB⟩ := hcomp p0 hp0mem q0 hq0mem
    constructor
    · rw [hqname, hpself q0.strategy_name]
      exact hA
    · rw [hpname, hqself p0.strategy_name]
      exact hB

/-- Every fixed strategy of the panel is total on aligned histories. -/
lemma strat_total_panel : ∀ pr ∈ PLAYER_INIT_DATA, StratTotal pr.2 := by
  intro pr hpr
  simp only [PLAYER_INIT_DATA, List.mem_cons, List.not_mem_nil, or_false] at hpr
  rcases hpr with rfl | rfl | rfl | rfl | rfl | rfl | rfl | rfl | rfl | rfl <;>
    exact ⟨fun d => by cases d <;> rfl,
      fun a b d => by cases a <;> cases b <;> cases d <;> rfl⟩

/-- Projections of the construction helpers (kept as rewrite rules: the
unifier otherwise tries to normalise the memory folds). -/
lemma mkPlayer_self (nm : String) (st : Strategy) (names : List String) :
    (mkPlayer nm st names).prev_move_self = initMemory names := rfl

/-- Name projection of `mkPlayer`. -/
lemma mkPlayer_name (nm : String) (st : Strategy) (names : List String) :
    (mkPlayer nm st names).strategy_name = nm := rfl

/-- Self-memory projection of `mkOpponent`. -/
lemma mkOpponent_self (c : Nat) (names : List String) :
    (mkOpponent c names).prev_move_self = initMemory names := rfl

/-- Name projection of `mkOpponent`. -/
lemma mkOpponent_name (c : Nat) (names : List String) :
    (mkOpponent c names).strategy_name = toString c := rfl

/-- The freshly constructed tournament satisfies the invariant. -/
lemma inv_mk_from (n_iter : Nat) (rules : RewardFunc) (pop : List Nat)
    (hlen : pop.length = 20) : Inv (Tournament.mk_from n_iter rules pop) := by
  refine ⟨rfl, ?_, ?_, ?_, ?_⟩
  · show (pop.map _).length = POPULATION_SIZE
    rw [List.length_map, hlen]
    rfl
  · intro p hmem
    obtain ⟨pr, hpr, rfl⟩ := List.mem_map.mp hmem
    exact ⟨fun k => rfl, strat_total_panel pr hpr⟩
  · intro q hmem
    obtain ⟨c, hc, rfl⟩ := List.mem_map.mp hmem
    exact ⟨fun k => rfl,
      ⟨fun d => rfl, fun a b d => by cases a <;> cases b <;> rfl⟩⟩
  · intro p hmemp q hmemq
    obtain ⟨pr, hpr, rfl⟩ := List.mem_map.mp hmemp
    obtain ⟨c, hc, rfl⟩ := List.mem_map.mp hmemq
    constructor
    · rw [mkPlayer_self, mkOpponent_name, memLookup_initMemory]
      have hmem2 : toString c ∈ opponentNames pop := by
        obtain ⟨n, hn, hcn⟩ := List.mem_iff_getElem.mp hc
        unfold opponentNames
        refine List.mem_map.mpr
          ⟨n, List.mem_range.mpr (by unfold POPULATION_SIZE; omega), ?_⟩
        rw [List.getD_eq_getElem _ _ hn, hcn]
      rw [if_pos hmem2]
      rfl
    · rw [mkOpponent_self, mkPlayer_name, memLookup_initMemory]
      rw [if_pos (List.mem_map_of_mem _ hpr)]
      rfl

/-- The invariant holds in every reachable tournament state. -/
lemma reachable_inv {t t' : Tournament} (hinv : Inv t)
    (h : Reachable t t') : Inv t' := by
  induction h with
  | refl => exact hinv
  | step pd od i j hr hs ih => exact execute_round_preserves_inv ih hs

/-- Every scheduled pair is in range. -/
lemma schedule_bounds (m : Nat) :
    ∀ ij ∈ schedule m, ij.1 < 10 ∧ ij.2 < POPULATION_SIZE := by
  intro ij hij
  simp only [schedule, List.mem_flatMap, List.mem_map, List.mem_range] at hij
  obtain ⟨a, ha, j, hj, i, hi, rfl⟩ := hij
  exact ⟨hi, hj⟩

/-- Under the invariant, an in-range round schedule executes to the end. -/
lemma runRounds_isSome (draws : Nat → Bool × Bool) :
    ∀ (rounds : List (Nat × Nat)) (k : Nat) (t : Tournament), Inv t →
      (∀ ij ∈ rounds, ij.1 < 10 ∧ ij.2 < POPULATION_SIZE) →
      (runRounds draws rounds k t).isSome = true
  | [], _, _, _, _ => rfl
  | ij :: rest, k, t, hinv, hb => by
    obtain ⟨t2, ht2⟩ := Option.isSome_iff_exists.mp
      (execute_round_isSome hinv (hb ij (List.mem_cons_self _ _)).1
        (hb ij (List.mem_cons_self _ _)).2 (draws k).1 (draws k).2)
    unfold runRounds
    rw [ht2]
    exact runRounds_isSome draws rest (k + 1) t2
      (execute_round_preserves_inv hinv ht2)
      (fun ij2 h2 => hb ij2 (List.mem_cons_of_mem _ h2))

/-- C10.  In every tournament reachable from construction (on a 20-member
population) by any sequence of executed rounds, every player's and every
opponent's two memory maps bind exactly the same key set with values that
are both `None` or both `Some` — so no strategy is ever handed exactly one
`None` — and `run` executes its whole schedule without aborting. -/
theorem memory_invariant_and_run_total (n_iter : Nat) (rules : RewardFunc)
    (pop : List Nat) (hlen : pop.length = 20) (t' : Tournament)
    (hreach : Reachable (Tournament.mk_from n_iter rules pop) t')
    (draws : Nat → Bool × Bool) :
    (∀ p ∈ t'.players, MemAligned p) ∧
    (∀ q ∈ t'.opponents, MemAligned q) ∧
    ((Tournament.mk_from n_iter rules pop).run draws).isSome = true := by
  have hinv0 := inv_mk_from n_iter rules pop hlen
  have hinv2 := reachable_inv hinv0 hreach
  refine ⟨fun p hp => (hinv2.2.2.1 p hp).1,
    fun q hq => (hinv2.2.2.2.1 q hq).1, ?_⟩
  exact runRounds_isSome draws (schedule _) 0 _ hinv0 (schedule_bounds _)

/-- Witness for `memory_invariant_and_run_total` on the population
`0, 1, ..., 19` with one iteration. -/
theorem memory_invariant_and_run_total_witness :
    (List.range 20).length = 20 ∧
    ((∀ p ∈ (Tournament.mk_from 1 prisoners_dillemma_rules
        (List.range 20)).players, MemAligned p) ∧
      (∀ q ∈ (Tournament.mk_from 1 prisoners_dillemma_rules
        (List.range 20)).opponents, MemAligned q) ∧
      ((Tournament.mk_from 1 prisoners_dillemma_rules (List.range 20)).run
          (fun _ => (true, true))).isSome = true) :=
  ⟨by decide,
    memory_invariant_and_run_total 1 prisoners_dillemma_rules
      (List.range 20) (by decide)
      (Tournament.mk_from 1 prisoners_dillemma_rules (List.range 20))
      (Reachable.refl _) (fun _ => (true, true))⟩

/-!
## C4: the ranking of `select_ten_fittest`

The key fact: reversing a stable ascending insertion sort yields the
descending ranking whose ties are in **reverse** original order, i.e. the
insertion sort by the strict descending key order — not the stable
descending ranking (ties in original order) that the claim describes.
-/

instance : IsTotal (Nat × Int) ascending :=
  ⟨fun a b => Int.le_total a.2 b.2⟩

instance : IsTrans (Nat × Int) ascending :=
  ⟨fun _ _ _ h1 h2 => le_trans h1 h2⟩

/-- Inserting before a final element it precedes commutes with the
append. -/
lemma orderedInsert_append_single (a b : Nat × Int)
    (l : List (Nat × Int)) (hab : descendingStrict a b) :
    List.orderedInsert descendingStrict a (l ++ [b]) =
      List.orderedInsert descendingStrict a l ++ [b] := by
  induction l with
  | nil => simp [List.orderedInsert, hab]
  | cons c l ih =>
    by_cases h : descendingStrict a c <;> simp [List.orderedInsert, h, ih]

/-- An element dominated by nothing in the list is inserted at the end. -/
lemma orderedInsert_of_not (a : Nat × Int) (l : List (Nat × Int))
    (h : ∀ x ∈ l, ¬ descendingStrict a x) :
    List.orderedInsert descendingStrict a l = l ++ [a] := by
  induction l with
  | nil => rfl
  | cons c l ih =>
    rw [List.orderedInsert, if_neg (h c (by simp)),
      ih (fun x hx => h x (by simp [hx]))]
    rfl

/-- Reversal of an ascending ordered insert into an ascending-sorted list is
a strict-descending ordered insert into the reversed list. -/
lemma reverse_orderedInsert (a : Nat × Int) :
    ∀ s : List (Nat × Int), s.Pairwise ascending →
      (List.orderedInsert ascending a s).reverse =
        List.orderedInsert descendingStrict a s.reverse
  | [], _ => rfl
  | b :: s, hs => by
    have hbs : ∀ x ∈ s, ascending b x := (List.pairwise_cons.mp hs).1
    have hs2 : s.Pairwise ascending := (List.pairwise_cons.mp hs).2
    by_cases hab : ascending a b
    · have hnot : ∀ x ∈ s.reverse ++ [b], ¬ descendingStrict a x := by
        intro x hx
        rcases List.mem_append.mp hx with hx2 | hx2
        · have hbx := hbs x (List.mem_reverse.mp hx2)
          unfold descendingStrict
          unfold ascending at hbx hab
          omega
        · rw [List.mem_singleton.mp hx2]
          unfold descendingStrict
          unfold ascending at hab
          omega
      rw [List.orderedInsert, if_pos hab]
      rw [List.reverse_cons, List.reverse_cons]
      rw [orderedInsert_of_not a (s.reverse ++ [b]) hnot]
    · rw [List.orderedInsert, if_neg hab]
      rw [List.reverse_cons, List.reverse_cons]
      rw [orderedInsert_append_single a b _
        (by unfold descendingStrict; unfold ascending at hab; omega)]
      rw [reverse_orderedInsert a s hs2]

/-- Reversing the stable ascending insertion sort gives the strict
descending insertion sort (ties end up in reverse original order). -/
lemma reverse_insertionSort (l : List (Nat × Int)) :
    (List.insertionSort ascending l).reverse =
      List.insertionSort descendingStrict l := by
  induction l with
  | nil => rfl
  | cons a l ih =>
    rw [List.insertionSort, List.insertionSort,
      reverse_orderedInsert a _ (List.sorted_insertionSort ascending l), ih]

/-- C4 counterexample.  On the completed zero-iteration tournament over the
population `0..19` every opponent's aggregate fitness is `0` (a 20-way
tie), and the code's ranking is the *reverse* of the original population
order — not the stable descending ranking (ties in original order) that
the claim describes. -/
theorem select_rank_tie_counterexample :
    ranked_score_acc
        (Tournament.mk_from 0 prisoners_dillemma_rules (List.range 20)) ≠
      (score_acc_list
          (Tournament.mk_from 0 prisoners_dillemma_rules (List.range 20))).map
        (fun l => List.insertionSort descendingStable l) := by
  decide

/-- C4 amended.  `select_ten_fittest` sums, for every opponent, the
opponent-side components of its score column (that part of the claim is
exact), but ranks descending with ties broken by the **reverse** of the
original population order — it equals the strict-descending insertion sort
of the accumulated `(organism, fitness)` list — and returns the decoded
genomes of the first ten so ranked. -/
theorem select_ten_fittest_ranking (t : Tournament) :
    ranked_score_acc t = (score_acc_list t).map
      (fun l => List.insertionSort descendingStrict l) ∧
    select_ten_fittest t = (score_acc_list t).map
      (fun l => ((List.insertionSort descendingStrict l).map
        fun p => number_to_genome p.1).take 10) := by
  have h1 : ranked_score_acc t = (score_acc_list t).map
      (fun l => List.insertionSort descendingStrict l) := by
    unfold ranked_score_acc
    cases hs : score_acc_list t with
    | none => rfl
    | some l => simp [reverse_insertionSort]
  refine ⟨h1, ?_⟩
  unfold select_ten_fittest
  rw [h1]
  cases hs : score_acc_list t with
  | none => rfl
  | some l => simp

end GameTheory
